import Mathlib

/-!
Shallow embedding of the frosty workflow Graph Store and Dependency
Resolver (`workflow/repository.go`, with the matching SQL embedded in
`pqinit`): nodes, the `node_closure` table and the `workflow_logs`
table, together with the operations `CreateNode`, `GetNode`,
`AddRelationship`, `GetDescendants`, `LogNodeExecution`,
`ValidateWorkflow`, `GetImmediateAncestors`, `GetExecutedNodes` and
`AllParentsCompleted`.

Modelling conventions:
* UUIDs are opaque identifiers, modelled as `Nat`; `uuid.New()` and
  `NOW()` are nondeterministic environment inputs, so they appear as
  explicit parameters of the operations that use them.
* A database state is a triple of lists (row multisets in insertion
  order).  `INSERT` appends; the relational store is the external
  collaborator of the design, so a plain `INSERT` succeeds, and Go
  functions whose only error source is `db.Exec` on an `INSERT` return
  `Except.ok` always — the `Except` layer keeps the Go `error` channel
  visible in the model.
* An `INSERT ... SELECT` reads the pre-insert snapshot of the table.
* The uncorrelated scalar subquery in `GetExecutedNodes` is evaluated
  once per statement: zero rows yield SQL `NULL` (the `<=` comparison
  then qualifies no row), more than one row raises the PostgreSQL
  error "more than one row returned by a subquery used as an
  expression".
-/

namespace Frosty

/-- A row of the `nodes` table (columns as in `repository.go`). -/
structure Node where
  id : Nat
  title : String
  type : String
  description : String
  created_at : Nat
  updated_at : Option Nat
  deleted_at : Option Nat
deriving DecidableEq, Repr

/-- A row of the `node_closure` table. -/
structure NodeClosure where
  ancestor : Nat
  descendant : Nat
  depth : Nat
deriving DecidableEq, Repr

/-- A row of the `workflow_logs` table. -/
structure WorkflowLog where
  node_id : Nat
  status : String
  message : String
  executed_at : Nat
deriving DecidableEq, Repr

/-- The database state seen by the Graph Store operations. -/
structure DB where
  nodes : List Node
  node_closure : List NodeClosure
  workflow_logs : List WorkflowLog
deriving DecidableEq, Repr

/-- `CreateNode` (`repository.go:12`): allocates a fresh id (modelled by
the `newId` parameter) and unconditionally inserts the row — the Go
code performs no validation of `title` or `type`. -/
def CreateNode (db : DB) (newId : Nat) (title ty descr : String) (now : Nat) :
    Except String (DB × Nat) :=
  Except.ok
    ({ db with nodes := db.nodes ++ [⟨newId, title, ty, descr, now, none, none⟩] }, newId)

/-- `GetNode` (`repository.go:26`): `SELECT ... FROM nodes WHERE id = $1`
with no `deleted_at` filter; `sql.ErrNoRows` when no row matches. -/
def GetNode (db : DB) (nodeID : Nat) : Except String Node :=
  match db.nodes.find? (fun n => n.id == nodeID) with
  | some n => Except.ok n
  | none => Except.error "sql: no rows in result set"

/-- The closure-table mutation performed by `AddRelationship`
(`repository.go:36`):

    INSERT INTO node_closure (ancestor, descendant, depth)
    SELECT ancestor, $descendant, depth + 1
    FROM node_closure WHERE descendant = $ancestor
    UNION ALL
    SELECT $ancestor, $descendant, 0
-/
def addRel (db : DB) (ancestor descendant : Nat) : DB :=
  let derived := (db.node_closure.filter (fun e => e.descendant == ancestor)).map
    (fun e => NodeClosure.mk e.ancestor descendant (e.depth + 1))
  { db with node_closure := db.node_closure ++ derived ++ [⟨ancestor, descendant, 0⟩] }

/-- `AddRelationship` (`repository.go:36`): performs the single `INSERT`
of `addRel` and returns the `db.Exec` error, which is `nil` under the
external-store contract; the Go code contains no cycle check and no
other failure path. -/
def AddRelationship (db : DB) (ancestor descendant : Nat) : Except String DB :=
  Except.ok (addRel db ancestor descendant)

/-- `GetDescendants` (`repository.go:51`): join of `node_closure`
(filtered on `ancestor`) with `nodes` on `nc.descendant = n.id`; no
`deleted_at` filter. -/
def GetDescendants (db : DB) (ancestor : Nat) : List Node :=
  (db.node_closure.filter (fun e => e.ancestor == ancestor)).flatMap
    (fun e => db.nodes.filter (fun n => n.id == e.descendant))

/-- `LogNodeExecution` (`repository.go:75`): appends one row to
`workflow_logs` (`executed_at` filled by the store, modelled by `now`). -/
def LogNodeExecution (db : DB) (nodeID : Nat) (status message : String) (now : Nat) :
    Except String DB :=
  Except.ok
    { db with workflow_logs := db.workflow_logs ++ [⟨nodeID, status, message, now⟩] }

/-- `ValidateWorkflow` (`repository.go:83`): counts closure rows with
`ancestor = descendant AND ancestor = startNode` and reports a cyclic
dependency only when that count exceeds one. -/
def ValidateWorkflow (db : DB) (startNode : Nat) : Except String Unit :=
  let count := (db.node_closure.filter
      (fun e => e.ancestor == e.descendant && e.ancestor == startNode)).length
  if count > 1 then Except.error "cyclic dependency detected" else Except.ok ()

/-- `GetImmediateAncestors` (`repository.go:97`): join of `node_closure`
(filtered on `descendant = nodeID AND depth = 1`) with `nodes` on
`nc.ancestor = n.id`. -/
def GetImmediateAncestors (db : DB) (nodeID : Nat) : List Node :=
  (db.node_closure.filter (fun e => e.descendant == nodeID && e.depth == 1)).flatMap
    (fun e => db.nodes.filter (fun n => n.id == e.ancestor))

/-- Stable insertion into a list sorted by `executed_at` descending. -/
def insertDesc (l : WorkflowLog) : List WorkflowLog → List WorkflowLog
  | [] => [l]
  | x :: xs =>
    if x.executed_at < l.executed_at then l :: x :: xs else x :: insertDesc l xs

/-- `ORDER BY executed_at DESC` over `workflow_logs` rows. -/
def sortDesc : List WorkflowLog → List WorkflowLog
  | [] => []
  | x :: xs => insertDesc x (sortDesc xs)

/-- `GetExecutedNodes` (`repository.go:121`): the inner
`SELECT executed_at FROM workflow_logs WHERE node_id = $1` is an
unguarded scalar subquery; see the module comment for its semantics. -/
def GetExecutedNodes (db : DB) (currentNode : Nat) : Except String (List Node) :=
  match db.workflow_logs.filter (fun l => l.node_id == currentNode) with
  | [] => Except.ok []
  | [l] =>
    Except.ok
      ((sortDesc (db.workflow_logs.filter
          (fun w => w.status == "success" && decide (w.executed_at ≤ l.executed_at)))).flatMap
        (fun w => db.nodes.filter (fun n => n.id == w.node_id)))
  | _ :: _ :: _ =>
    Except.error "pq: more than one row returned by a subquery used as an expression"

/-- `AllParentsCompleted` (`repository.go:148`): counts closure rows with
`descendant = nodeID` joined to `nodes` with `type != 'End'` and
returns `count == 0`; the execution log is not consulted. -/
def AllParentsCompleted (db : DB) (nodeID : Nat) : Bool :=
  ((db.node_closure.filter (fun e => e.descendant == nodeID)).flatMap
      (fun e => db.nodes.filter (fun n => n.id == e.ancestor && n.type != "End"))).length
    == 0

/-- Runs a sequence of `AddRelationship` calls (each succeeds, so the
sequence is the left fold of `addRel`). -/
def runAdds (db : DB) (cs : List (Nat × Nat)) : DB :=
  cs.foldl (fun d c => addRel d c.1 c.2) db

/-! ## Graphs of call sequences

`AddRelationship` calls form a directed graph; the lemmas below relate
the closure table the code actually builds to walks in that graph. -/

/-- `Path E x y k`: a walk of length `k ≥ 1` from `x` to `y` along the
directed edges `E` (the list of `(ancestor, descendant)` calls). -/
inductive Path (E : List (Nat × Nat)) : Nat → Nat → Nat → Prop
  | single {a b : Nat} (h : (a, b) ∈ E) : Path E a b 1
  | snoc {x a b : Nat} {k : Nat} (hp : Path E x a k) (h : (a, b) ∈ E) : Path E x b (k + 1)

/-- A call sequence is good when no call's descendant is used as an
ancestor by the same call or by any earlier call: the graph is built
top-down, each new edge extending already-recorded walks. -/
def GoodSeq (cs : List (Nat × Nat)) : Prop :=
  (∀ c ∈ cs, c.2 ≠ c.1) ∧ List.Pairwise (fun p q => q.2 ≠ p.1) cs

theorem runAdds_cons (db : DB) (c : Nat × Nat) (cs : List (Nat × Nat)) :
    runAdds db (c :: cs) = runAdds (addRel db c.1 c.2) cs := rfl

theorem runAdds_concat (db : DB) (cs : List (Nat × Nat)) (c : Nat × Nat) :
    runAdds db (cs ++ [c]) = addRel (runAdds db cs) c.1 c.2 := by
  simp [runAdds, List.foldl_append]

theorem runAdds_nodes (db : DB) (cs : List (Nat × Nat)) :
    (runAdds db cs).nodes = db.nodes := by
  induction cs generalizing db with
  | nil => rfl
  | cons c cs ih => rw [runAdds_cons, ih]; rfl

/-- Membership in the closure table after one `addRel`: an old row, a
derived row `(e.ancestor, d, e.depth + 1)`, or the direct row `(a, d, 0)`. -/
theorem mem_addRel_closure {db : DB} {a d : Nat} {x : NodeClosure} :
    x ∈ (addRel db a d).node_closure ↔
      x ∈ db.node_closure
        ∨ (∃ e ∈ db.node_closure, e.descendant = a ∧ x = ⟨e.ancestor, d, e.depth + 1⟩)
        ∨ x = ⟨a, d, 0⟩ := by
  simp only [addRel, List.mem_append, List.mem_map, List.mem_filter, List.mem_singleton,
    beq_iff_eq, or_assoc]
  constructor
  · rintro (h | ⟨e, ⟨he, hd⟩, rfl⟩ | h)
    · exact Or.inl h
    · exact Or.inr (Or.inl ⟨e, he, hd, rfl⟩)
    · exact Or.inr (Or.inr h)
  · rintro (h | ⟨e, he, hd, rfl⟩ | h)
    · exact Or.inl h
    · exact Or.inr (Or.inl ⟨e, ⟨he, hd⟩, rfl⟩)
    · exact Or.inr (Or.inr h)

theorem mem_runAdds_closure_of_mem {db : DB} {x : NodeClosure}
    (h : x ∈ db.node_closure) (cs : List (Nat × Nat)) :
    x ∈ (runAdds db cs).node_closure := by
  induction cs generalizing db with
  | nil => exact h
  | cons c cs ih => exact ih (mem_addRel_closure.mpr (Or.inl h))

theorem Path.pos {E : List (Nat × Nat)} {x y k : Nat} (h : Path E x y k) : 1 ≤ k := by
  cases h <;> omega

/-- Every closure row the code ever inserts records a walk of length
`depth + 1` along the calls made so far (this holds for every call
sequence, good or not). -/
theorem closure_sound_aux (E : List (Nat × Nat)) :
    ∀ cs : List (Nat × Nat), (∀ c ∈ cs, c ∈ E) →
    ∀ db : DB, (∀ e ∈ db.node_closure, Path E e.ancestor e.descendant (e.depth + 1)) →
    ∀ e ∈ (runAdds db cs).node_closure, Path E e.ancestor e.descendant (e.depth + 1) := by
  intro cs
  induction cs with
  | nil => intro _ db hdb; exact hdb
  | cons c cs ih =>
    intro hcs db hdb
    obtain ⟨a, b⟩ := c
    rw [runAdds_cons]
    refine ih (fun c' hc' => hcs c' (List.mem_cons_of_mem _ hc')) (addRel db a b) ?_
    intro e he
    have hab : (a, b) ∈ E := hcs (a, b) (List.mem_cons_self _ _)
    rcases mem_addRel_closure.mp he with h | ⟨e', he', hd, rfl⟩ | rfl
    · exact hdb e h
    · exact Path.snoc (hd ▸ hdb e' he') hab
    · exact Path.single hab

theorem closure_sound {cs : List (Nat × Nat)} {db : DB} (h0 : db.node_closure = [])
    {e : NodeClosure} (he : e ∈ (runAdds db cs).node_closure) :
    Path cs e.ancestor e.descendant (e.depth + 1) :=
  closure_sound_aux cs cs (fun _ h => h) db (by simp [h0]) e he

/-- Decomposing a walk over `E ++ [(a, b)]` when `b` has no outgoing
edge: the walk stays in `E`, or it ends with the new edge. -/
theorem path_concat_cases {E : List (Nat × Nat)} {a b : Nat}
    (hba : b ≠ a) (hout : ∀ p ∈ E, b ≠ p.1) {x y k : Nat}
    (h : Path (E ++ [(a, b)]) x y k) :
    Path E x y k ∨ (y = b ∧ ((k = 1 ∧ x = a) ∨ ∃ m, k = m + 1 ∧ Path E x a m)) := by
  induction h with
  | single h =>
    rcases List.mem_append.mp h with h | h
    · exact Or.inl (.single h)
    · rw [List.mem_singleton, Prod.mk.injEq] at h
      exact Or.inr ⟨h.2, Or.inl ⟨rfl, h.1⟩⟩
  | snoc hp h ih =>
    rcases ih with hE | ⟨rfl, _⟩
    · rcases List.mem_append.mp h with h' | h'
      · exact Or.inl (.snoc hE h')
      · rw [List.mem_singleton, Prod.mk.injEq] at h'
        exact Or.inr ⟨h'.2, Or.inr ⟨_, rfl, h'.1 ▸ hE⟩⟩
    · rcases List.mem_append.mp h with h' | h'
      · exact absurd rfl (hout _ h')
      · rw [List.mem_singleton, Prod.mk.injEq] at h'
        exact absurd h'.1 hba

theorem goodSeq_concat {cs : List (Nat × Nat)} {c : Nat × Nat}
    (h : GoodSeq (cs ++ [c])) :
    GoodSeq cs ∧ c.2 ≠ c.1 ∧ ∀ p ∈ cs, c.2 ≠ p.1 := by
  obtain ⟨hself, hpw⟩ := h
  rw [List.pairwise_append] at hpw
  refine ⟨⟨fun p hp => hself p (List.mem_append_left _ hp), hpw.1⟩,
    hself c (List.mem_append_right _ (List.mem_singleton_self _)), ?_⟩
  intro p hp
  exact hpw.2.2 p hp c (List.mem_singleton_self _)

/-- For a good sequence, every walk of length `k + 1` along the calls is
recorded in the closure table at depth `k`. -/
theorem closure_complete :
    ∀ cs : List (Nat × Nat), GoodSeq cs → ∀ db : DB, db.node_closure = [] →
    ∀ x y k, Path cs x y (k + 1) → NodeClosure.mk x y k ∈ (runAdds db cs).node_closure := by
  intro cs
  induction cs using List.reverseRecOn with
  | nil =>
    intro _ db _ x y k h
    cases h with
    | single h => exact absurd h (List.not_mem_nil _)
    | snoc hp h => exact absurd h (List.not_mem_nil _)
  | append_singleton cs c ih =>
    intro hg db h0 x y k h
    obtain ⟨hg', hba, hout⟩ := goodSeq_concat hg
    obtain ⟨a, b⟩ := c
    rw [runAdds_concat]
    rcases path_concat_cases hba hout h with hE | ⟨rfl, hcase⟩
    · exact mem_addRel_closure.mpr (Or.inl (ih hg' db h0 x y k hE))
    · rcases hcase with ⟨hk, rfl⟩ | ⟨m, hm, hp⟩
      · obtain rfl : k = 0 := by omega
        exact mem_addRel_closure.mpr (Or.inr (Or.inr rfl))
      · have hmk : m = k := by omega
        subst hmk
        obtain ⟨k', rfl⟩ : ∃ k', m = k' + 1 := ⟨m - 1, by have := hp.pos; omega⟩
        exact mem_addRel_closure.mpr
          (Or.inr (Or.inl ⟨⟨x, a, k'⟩, ih hg' db h0 x a k' hp, rfl, rfl⟩))

/-- Auxiliary invariant: the ancestor field of every closure row comes
from the ancestors of the calls, and (for good sequences) never equals
the row's descendant. -/
theorem closure_anc_aux (cs : List (Nat × Nat)) :
    (∀ c ∈ cs, c.2 ≠ c.1) → List.Pairwise (fun p q => q.2 ≠ p.1) cs →
    ∀ (db : DB) (A : List Nat),
      (∀ x ∈ A, ∀ c ∈ cs, c.2 ≠ x) →
      (∀ e ∈ db.node_closure, e.ancestor ∈ A ∧ e.ancestor ≠ e.descendant) →
      ∀ e ∈ (runAdds db cs).node_closure,
        e.ancestor ∈ A ++ cs.map Prod.fst ∧ e.ancestor ≠ e.descendant := by
  induction cs with
  | nil =>
    intro _ _ db A _ hdb e he
    simpa using hdb e he
  | cons c cs ih =>
    intro hself hpw db A hA hdb e he
    obtain ⟨a, b⟩ := c
    rw [runAdds_cons] at he
    rw [List.pairwise_cons] at hpw
    have hmain := ih (fun c h => hself c (List.mem_cons_of_mem _ h)) hpw.2
      (addRel db a b) (A ++ [a]) ?_ ?_ e he
    · simpa [List.append_assoc] using hmain
    · intro x hx c hc
      rcases List.mem_append.mp hx with hx | hx
      · exact hA x hx c (List.mem_cons_of_mem _ hc)
      · rw [List.mem_singleton] at hx
        exact hx ▸ hpw.1 c hc
    · intro e' he'
      rcases mem_addRel_closure.mp he' with h | ⟨e₀, he₀, hd, rfl⟩ | rfl
      · obtain ⟨h1, h2⟩ := hdb e' h
        exact ⟨List.mem_append_left _ h1, h2⟩
      · obtain ⟨h1, h2⟩ := hdb e₀ he₀
        refine ⟨List.mem_append_left _ h1, fun hEq => ?_⟩
        exact hA e₀.ancestor h1 (a, b) (List.mem_cons_self _ _) hEq.symm
      · exact ⟨List.mem_append_right _ (List.mem_singleton_self _),
          fun hEq => hself (a, b) (List.mem_cons_self _ _) hEq.symm⟩

/-- For a good sequence the code creates no reflexive closure row. -/
theorem closure_no_refl {cs : List (Nat × Nat)} (hg : GoodSeq cs) {db : DB}
    (h0 : db.node_closure = []) :
    ∀ e ∈ (runAdds db cs).node_closure, e.ancestor ≠ e.descendant := by
  intro e he
  exact (closure_anc_aux cs hg.1 hg.2 db []
    (by intro x hx; exact absurd hx (List.not_mem_nil _))
    (by simp [h0]) e he).2

/-- Membership introduction for the `GetDescendants` join. -/
theorem mem_GetDescendants {db : DB} {a : Nat} {nd : Node} {e : NodeClosure}
    (he : e ∈ db.node_closure) (ha : e.ancestor = a) (hnd : nd ∈ db.nodes)
    (hid : nd.id = e.descendant) : nd ∈ GetDescendants db a := by
  rw [GetDescendants, List.mem_flatMap]
  exact ⟨e, List.mem_filter.mpr ⟨he, by simp [ha]⟩,
    List.mem_filter.mpr ⟨hnd, by simp [hid]⟩⟩

/-! ## Concrete database states used in the claim instances -/

/-- Two `Task` nodes, the edge row (1,2,0), and a `success` log entry
for node 1. -/
def exDb4 : DB :=
  ⟨[⟨1, "A", "Task", "", 0, none, none⟩, ⟨2, "B", "Task", "", 0, none, none⟩],
    [⟨1, 2, 0⟩], [⟨1, "success", "done", 5⟩]⟩

/-- Three `Task` nodes and nothing else. -/
def exDb6 : DB :=
  ⟨[⟨1, "A", "Task", "", 0, none, none⟩, ⟨2, "B", "Task", "", 0, none, none⟩,
    ⟨3, "C", "Task", "", 0, none, none⟩], [], []⟩

/-- A root node and a soft-deleted node (deleted_at set), with the edge
row (1,2,0). -/
def exDb7 : DB :=
  ⟨[⟨1, "Root", "Start", "", 0, none, none⟩, ⟨2, "Gone", "Task", "", 0, none, some 9⟩],
    [⟨1, 2, 0⟩], []⟩

/-- A single node with no closure rows and no log entries. -/
def exDb9 : DB := ⟨[⟨1, "Loop", "Task", "", 0, none, none⟩], [], []⟩

/-! ## Claims -/

/-- C1 (counterexample): starting from an empty database, after
`AddRelationship 1 2` succeeds, the subsequent call `AddRelationship 2 1`
does not fail with a cycle error — it succeeds, and the closure table
grows from `[(1,2,0)]` to `[(1,2,0), (1,1,1), (2,1,0)]` instead of
staying unchanged. -/
theorem C1_counterexample :
    AddRelationship (⟨[], [], []⟩ : DB) 1 2 = Except.ok (addRel ⟨[], [], []⟩ 1 2) ∧
    (addRel (⟨[], [], []⟩ : DB) 1 2).node_closure = [⟨1, 2, 0⟩] ∧
    AddRelationship (addRel ⟨[], [], []⟩ 1 2) 2 1
      = Except.ok (addRel (addRel ⟨[], [], []⟩ 1 2) 2 1) ∧
    (addRel (addRel (⟨[], [], []⟩ : DB) 1 2) 2 1).node_closure
      = [⟨1, 2, 0⟩, ⟨1, 1, 1⟩, ⟨2, 1, 0⟩] :=
  ⟨rfl, by decide, rfl, by decide⟩

/-- C1 (amended): `AddRelationship` performs no cycle detection.  For
all nodes `a`, `b` and a database whose closure table is empty,
`AddRelationship a b` followed by `AddRelationship b a` both succeed,
and the second call — far from leaving the table unchanged — makes the
closure table exactly `[(a,b,0), (a,a,1), (b,a,0)]`. -/
theorem C1_amended_thm (ns : List Node) (ls : List WorkflowLog) (a b : Nat) :
    AddRelationship (⟨ns, [], ls⟩ : DB) a b = Except.ok (addRel ⟨ns, [], ls⟩ a b) ∧
    AddRelationship (addRel ⟨ns, [], ls⟩ a b) b a
      = Except.ok (addRel (addRel ⟨ns, [], ls⟩ a b) b a) ∧
    (addRel (addRel (⟨ns, [], ls⟩ : DB) a b) b a).node_closure
      = [⟨a, b, 0⟩, ⟨a, a, 1⟩, ⟨b, a, 0⟩] := by
  refine ⟨rfl, rfl, ?_⟩
  simp [addRel]

/-- C2 (counterexample): `AddRelationship 1 2` on an empty closure table
inserts only the direct row `(1, 2, 0)`; the reflexive self-entry
`(2, 2, 0)` the claim demands is not inserted. -/
theorem C2_counterexample :
    AddRelationship (⟨[], [], []⟩ : DB) 1 2 = Except.ok (addRel ⟨[], [], []⟩ 1 2) ∧
    (addRel (⟨[], [], []⟩ : DB) 1 2).node_closure = [⟨1, 2, 0⟩] ∧
    NodeClosure.mk 2 2 0 ∉ (addRel (⟨[], [], []⟩ : DB) 1 2).node_closure :=
  ⟨rfl, by decide, by decide⟩

/-- C2 (amended): every `AddRelationship ancestorID descendantID` call
leaves the existing rows unchanged and appends exactly: the direct
entry `(ancestorID, descendantID, 0)` — not a reflexive self-entry —
plus, for every existing row `e` with `e.descendant = ancestorID`, the
row `(e.ancestor, descendantID, e.depth + 1)`. -/
theorem C2_amended_thm (db : DB) (a d : Nat) :
    ∃ inserted : List NodeClosure,
      AddRelationship db a d
        = Except.ok { db with node_closure := db.node_closure ++ inserted } ∧
      ∀ x : NodeClosure, x ∈ inserted ↔
        (x = ⟨a, d, 0⟩ ∨
          ∃ e ∈ db.node_closure, e.descendant = a ∧ x = ⟨e.ancestor, d, e.depth + 1⟩) := by
  refine ⟨(db.node_closure.filter (fun e => e.descendant == a)).map
      (fun e => NodeClosure.mk e.ancestor d (e.depth + 1)) ++ [⟨a, d, 0⟩], ?_, ?_⟩
  · simp [AddRelationship, addRel, List.append_assoc]
  · intro x
    simp only [List.mem_append, List.mem_map, List.mem_filter, List.mem_singleton,
      beq_iff_eq]
    constructor
    · rintro (⟨e, ⟨he, hd⟩, rfl⟩ | h)
      · exact Or.inr ⟨e, he, hd, rfl⟩
      · exact Or.inl h
    · rintro (h | ⟨e, he, hd, rfl⟩)
      · exact Or.inr h
      · exact Or.inl ⟨e, ⟨he, hd⟩, rfl⟩

/-- C4 (counterexample): in `exDb4`, node 2's only ancestor is node 1
(type `Task`, not `End`), and node 1 has a `success` log entry; the
claim then demands `AllParentsCompleted 2 = true`, but the code returns
`false` — the execution log is never consulted. -/
theorem C4_counterexample :
    WorkflowLog.mk 1 "success" "done" 5 ∈ exDb4.workflow_logs ∧
    exDb4.node_closure = [⟨1, 2, 0⟩] ∧
    AllParentsCompleted exDb4 2 = false := by decide

/-- C4 (amended): `AllParentsCompleted n` is true iff no closure
ancestor of `n` (at any depth) resolves to a node whose type differs
from `"End"`; the execution log plays no role, so the result is
unchanged by any log contents — in particular it stays `false` after a
`success` entry for an ancestor is appended.  (It remains true for
nodes with zero ancestors.) -/
theorem C4_amended_thm (db : DB) (n : Nat) :
    (AllParentsCompleted db n = true ↔
      ∀ e ∈ db.node_closure, e.descendant = n →
        ∀ nd ∈ db.nodes, nd.id = e.ancestor → nd.type = "End") ∧
    (∀ L : List WorkflowLog,
      AllParentsCompleted ⟨db.nodes, db.node_closure, L⟩ n = AllParentsCompleted db n) := by
  refine ⟨?_, fun L => rfl⟩
  simp only [AllParentsCompleted]
  rw [beq_iff_eq, List.length_eq_zero, List.eq_nil_iff_forall_not_mem]
  constructor
  · intro h e he hd nd hnd hid
    by_contra hty
    refine h nd (List.mem_flatMap.mpr ⟨e, List.mem_filter.mpr ⟨he, by simp [hd]⟩,
      List.mem_filter.mpr ⟨hnd, ?_⟩⟩)
    simp [hid, hty]
  · intro h nd hmem
    obtain ⟨e, hef, hnf⟩ := List.mem_flatMap.mp hmem
    obtain ⟨he, hd⟩ := List.mem_filter.mp hef
    obtain ⟨hnd, hcond⟩ := List.mem_filter.mp hnf
    rw [beq_iff_eq] at hd
    simp only [Bool.and_eq_true, beq_iff_eq, bne_iff_ne, ne_eq] at hcond
    exact hcond.2 (h e he hd nd hnd hcond.1)

/-- C7 (counterexample): node 2 of `exDb7` is soft-deleted
(`deleted_at = some 9`), yet `GetNode` returns it successfully instead
of failing, and `GetDescendants 1` includes it. -/
theorem C7_counterexample :
    (⟨2, "Gone", "Task", "", 0, none, some 9⟩ : Node).deleted_at ≠ none ∧
    GetNode exDb7 2 = Except.ok ⟨2, "Gone", "Task", "", 0, none, some 9⟩ ∧
    (⟨2, "Gone", "Task", "", 0, none, some 9⟩ : Node) ∈ GetDescendants exDb7 1 :=
  ⟨by decide, rfl, by decide⟩

/-- C7 (amended): neither lookup filters on `deleted_at`: `GetNode`
succeeds for every stored node, soft-deleted or not, and
`GetDescendants a` includes every stored node that has a closure row
under `a`, soft-deleted or not. -/
theorem C7_amended_thm (db : DB) (nd : Node) (hnd : nd ∈ db.nodes)
    (_hdel : nd.deleted_at ≠ none) :
    (∃ m : Node, GetNode db nd.id = Except.ok m) ∧
    (∀ a d : Nat, NodeClosure.mk a nd.id d ∈ db.node_closure →
      nd ∈ GetDescendants db a) := by
  constructor
  · rw [GetNode]
    have hs : (db.nodes.find? (fun n => n.id == nd.id)).isSome := by
      rw [List.find?_isSome]
      exact ⟨nd, hnd, by simp⟩
    obtain ⟨m, hm⟩ := Option.isSome_iff_exists.mp hs
    rw [hm]
    exact ⟨m, rfl⟩
  · intro a d he
    exact mem_GetDescendants he rfl hnd rfl

/-- C7 (witness): the soft-deleted node 2 of `exDb7` is returned by
`GetDescendants 1`. -/
theorem C7_witness :
    ((⟨2, "Gone", "Task", "", 0, none, some 9⟩ : Node) ∈ exDb7.nodes ∧
      (⟨2, "Gone", "Task", "", 0, none, some 9⟩ : Node).deleted_at ≠ none) ∧
    (⟨2, "Gone", "Task", "", 0, none, some 9⟩ : Node) ∈ GetDescendants exDb7 1 :=
  ⟨⟨by decide, by decide⟩,
    (C7_amended_thm exDb7 ⟨2, "Gone", "Task", "", 0, none, some 9⟩
      (by decide) (by decide)).2 1 0 (by decide)⟩

/-- C8 (counterexample): `CreateNode` with empty title and empty type
succeeds — no `ValidationError` — and inserts the node row. -/
theorem C8_counterexample :
    CreateNode (⟨[], [], []⟩ : DB) 7 "" "" "" 0
      = Except.ok (⟨[⟨7, "", "", "", 0, none, none⟩], [], []⟩, 7) := rfl

/-- C8 (amended): `CreateNode` performs no validation: for every title
and type, empty or not, it succeeds, returns the freshly allocated
identity, and appends exactly one node row. -/
theorem C8_amended_thm (db : DB) (newId : Nat) (title ty descr : String) (now : Nat) :
    ∃ db' : DB, CreateNode db newId title ty descr now = Except.ok (db', newId) ∧
      Node.mk newId title ty descr now none none ∈ db'.nodes ∧
      db'.nodes.length = db.nodes.length + 1 := by
  refine ⟨_, rfl, ?_, by simp⟩
  simp

/-- C9: on node 1, which has no prior closure rows, `AddRelationship 1 1`
succeeds and leaves the single self-loop row `(1,1,0)` in the closure
table; `ValidateWorkflow 1` still returns success, because exactly one
`ancestor = descendant` row exists and the check only rejects a count
greater than one. -/
theorem C9_selfloop_validates :
    AddRelationship exDb9 1 1 = Except.ok (addRel exDb9 1 1) ∧
    (addRel exDb9 1 1).node_closure = [⟨1, 1, 0⟩] ∧
    ValidateWorkflow (addRel exDb9 1 1) 1 = Except.ok () :=
  ⟨rfl, by decide, rfl⟩

/-- C10 (counterexample): node 1 of `exDb9` has zero log entries — not
exactly one — and `GetExecutedNodes` nevertheless succeeds (the scalar
subquery yields SQL `NULL` and the result is empty), refuting the
claim that the operation only succeeds when the node has exactly one
log entry. -/
theorem C10_counterexample :
    (exDb9.workflow_logs.filter (fun l => l.node_id == 1)).length = 0 ∧
    GetExecutedNodes exDb9 1 = Except.ok [] :=
  ⟨by decide, rfl⟩

/-- C10 (amended): `GetExecutedNodes n` fails — with the "more than one
row returned by a subquery used as an expression" error — exactly when
`n` has more than one log entry; with at most one entry (zero or one)
it succeeds. -/
theorem C10_amended_thm (db : DB) (n : Nat) :
    (∃ msg, GetExecutedNodes db n = Except.error msg) ↔
      1 < (db.workflow_logs.filter (fun l => l.node_id == n)).length := by
  rcases h : db.workflow_logs.filter (fun l => l.node_id == n) with _ | ⟨x, _ | ⟨y, ys⟩⟩ <;>
    simp [GetExecutedNodes, h]

/-- A two-call chain `a → b → c` on pairwise-distinct nodes is a good
sequence. -/
theorem goodSeq_pair {a b c : Nat} (h1 : b ≠ a) (h2 : c ≠ b) (h3 : c ≠ a) :
    GoodSeq [(a, b), (b, c)] := by
  constructor
  · intro p hp
    rcases List.mem_cons.mp hp with rfl | hp
    · exact h1
    rcases List.mem_cons.mp hp with rfl | hp
    · exact h2
    · exact absurd hp (List.not_mem_nil _)
  · refine List.Pairwise.cons ?_ (List.Pairwise.cons ?_ List.Pairwise.nil)
    · intro q hq
      rcases List.mem_cons.mp hq with rfl | hq
      · exact h3
      · exact absurd hq (List.not_mem_nil _)
    · intro q hq
      exact absurd hq (List.not_mem_nil _)

/-- C3 (counterexample): `AddRelationship 2 3` followed by
`AddRelationship 1 2` is cycle-free (node 1 is not a descendant of node
2 when the second call runs), yet afterwards node 1 — mentioned in a
call — has no reflexive depth-0 entry, the directly inserted edge
(1,2) has no depth-1 entry (its row sits at depth 0), and the
transitive path 1→2→3 of length 2 has no entry at all. -/
theorem C3_counterexample :
    (runAdds (⟨[], [], []⟩ : DB) [(2, 3), (1, 2)]).node_closure
      = [⟨2, 3, 0⟩, ⟨1, 2, 0⟩] ∧
    NodeClosure.mk 1 1 0 ∉ (runAdds (⟨[], [], []⟩ : DB) [(2, 3), (1, 2)]).node_closure ∧
    NodeClosure.mk 1 2 1 ∉ (runAdds (⟨[], [], []⟩ : DB) [(2, 3), (1, 2)]).node_closure ∧
    NodeClosure.mk 1 3 2 ∉ (runAdds (⟨[], [], []⟩ : DB) [(2, 3), (1, 2)]).node_closure :=
  ⟨by decide, by decide, by decide, by decide⟩

/-- C3 (amended): after any sequence of `AddRelationship` calls in
which no call's descendant is used as an ancestor by the same or an
earlier call (such a sequence is in particular cycle-free), the closure
table satisfies: no node has a reflexive entry at any depth (rather
than exactly one at depth 0); every directly inserted edge (a,b) has an
entry at depth 0 (rather than 1); and every transitive path of length
k + 1 has an entry at depth k (rather than k + 1). -/
theorem C3_amended_thm (cs : List (Nat × Nat)) (hg : GoodSeq cs)
    (ns : List Node) (ls : List WorkflowLog) :
    (∀ x d : Nat, NodeClosure.mk x x d ∉ (runAdds (⟨ns, [], ls⟩ : DB) cs).node_closure) ∧
    (∀ c ∈ cs, NodeClosure.mk c.1 c.2 0 ∈ (runAdds (⟨ns, [], ls⟩ : DB) cs).node_closure) ∧
    (∀ x y k : Nat, Path cs x y (k + 1) →
      NodeClosure.mk x y k ∈ (runAdds (⟨ns, [], ls⟩ : DB) cs).node_closure) := by
  refine ⟨?_, ?_, ?_⟩
  · intro x d hmem
    exact closure_no_refl hg rfl _ hmem rfl
  · intro c hc
    exact closure_complete cs hg _ rfl c.1 c.2 0 (Path.single (by rw [Prod.mk.eta]; exact hc))
  · intro x y k h
    exact closure_complete cs hg _ rfl x y k h

/-- C3 (witness): for the good sequence (1,2),(2,3), the direct edge
(1,2) is recorded at depth 0, the length-2 path 1→2→3 at depth 1, and
no reflexive row (1,1,d) exists; shown here at depth d = 0. -/
theorem C3_witness :
    GoodSeq [(1, 2), (2, 3)] ∧
    NodeClosure.mk 1 2 0 ∈ (runAdds (⟨[], [], []⟩ : DB) [(1, 2), (2, 3)]).node_closure ∧
    NodeClosure.mk 1 3 1 ∈ (runAdds (⟨[], [], []⟩ : DB) [(1, 2), (2, 3)]).node_closure ∧
    NodeClosure.mk 1 1 0 ∉ (runAdds (⟨[], [], []⟩ : DB) [(1, 2), (2, 3)]).node_closure := by
  have hg : GoodSeq [(1, 2), (2, 3)] := goodSeq_pair (by decide) (by decide) (by decide)
  refine ⟨hg, ?_, ?_, ?_⟩
  · exact (C3_amended_thm [(1, 2), (2, 3)] hg [] []).2.1 (1, 2) (by decide)
  · have q1 : Path [(1, 2), (2, 3)] 1 2 1 := Path.single (by decide)
    exact (C3_amended_thm [(1, 2), (2, 3)] hg [] []).2.2 1 3 1 (Path.snoc q1 (by decide))
  · exact (C3_amended_thm [(1, 2), (2, 3)] hg [] []).1 1 0

/-- C5: after the chain root→n1→n2→n3 built by the three calls
`AddRelationship root n1`, `AddRelationship n1 n2`,
`AddRelationship n2 n3` on distinct fresh nodes (empty closure table,
node rows present for n1, n2, n3), `GetDescendants root` contains all
of the nodes n1, n2, n3 — every transitively reachable node appears
regardless of its depth. -/
theorem C5_chain_descendants (r n1 n2 n3 : Nat)
    (hd : List.Pairwise (fun x y => x ≠ y) [r, n1, n2, n3])
    (ns : List Node) (ls : List WorkflowLog) (nd1 nd2 nd3 : Node)
    (h1 : nd1 ∈ ns) (h2 : nd2 ∈ ns) (h3 : nd3 ∈ ns)
    (e1 : nd1.id = n1) (e2 : nd2.id = n2) (e3 : nd3.id = n3) :
    nd1 ∈ GetDescendants (runAdds (⟨ns, [], ls⟩ : DB) [(r, n1), (n1, n2), (n2, n3)]) r ∧
    nd2 ∈ GetDescendants (runAdds (⟨ns, [], ls⟩ : DB) [(r, n1), (n1, n2), (n2, n3)]) r ∧
    nd3 ∈ GetDescendants (runAdds (⟨ns, [], ls⟩ : DB) [(r, n1), (n1, n2), (n2, n3)]) r := by
  obtain ⟨hA, hd'⟩ := List.pairwise_cons.mp hd
  obtain ⟨hB, hd''⟩ := List.pairwise_cons.mp hd'
  obtain ⟨hC, _⟩ := List.pairwise_cons.mp hd''
  have hg : GoodSeq [(r, n1), (n1, n2), (n2, n3)] := by
    constructor
    · intro c hc
      rcases List.mem_cons.mp hc with rfl | hc
      · exact (hA n1 (by simp)).symm
      rcases List.mem_cons.mp hc with rfl | hc
      · exact (hB n2 (by simp)).symm
      rcases List.mem_cons.mp hc with rfl | hc
      · exact (hC n3 (by simp)).symm
      · exact absurd hc (List.not_mem_nil _)
    · refine List.Pairwise.cons ?_
        (List.Pairwise.cons ?_ (List.Pairwise.cons ?_ List.Pairwise.nil))
      · intro q hq
        rcases List.mem_cons.mp hq with rfl | hq
        · exact (hA n2 (by simp)).symm
        rcases List.mem_cons.mp hq with rfl | hq
        · exact (hA n3 (by simp)).symm
        · exact absurd hq (List.not_mem_nil _)
      · intro q hq
        rcases List.mem_cons.mp hq with rfl | hq
        · exact (hB n3 (by simp)).symm
        · exact absurd hq (List.not_mem_nil _)
      · intro q hq
        exact absurd hq (List.not_mem_nil _)
  have p1 : Path [(r, n1), (n1, n2), (n2, n3)] r n1 1 := Path.single (by simp)
  have p2 : Path [(r, n1), (n1, n2), (n2, n3)] r n2 2 := Path.snoc p1 (by simp)
  have p3 : Path [(r, n1), (n1, n2), (n2, n3)] r n3 3 := Path.snoc p2 (by simp)
  have m1 := closure_complete _ hg (⟨ns, [], ls⟩ : DB) rfl r n1 0 p1
  have m2 := closure_complete _ hg (⟨ns, [], ls⟩ : DB) rfl r n2 1 p2
  have m3 := closure_complete _ hg (⟨ns, [], ls⟩ : DB) rfl r n3 2 p3
  have hnodes := runAdds_nodes (⟨ns, [], ls⟩ : DB) [(r, n1), (n1, n2), (n2, n3)]
  exact ⟨mem_GetDescendants m1 rfl (by rw [hnodes]; exact h1) e1,
    mem_GetDescendants m2 rfl (by rw [hnodes]; exact h2) e2,
    mem_GetDescendants m3 rfl (by rw [hnodes]; exact h3) e3⟩

/-- C5 (witness): the concrete chain 0→1→2→3 over the nodes of
`exDb6`; all of the nodes with ids 1, 2 and 3 are returned by
`GetDescendants 0`. -/
theorem C5_witness :
    List.Pairwise (fun x y => x ≠ y) [0, 1, 2, 3] ∧
    (⟨1, "A", "Task", "", 0, none, none⟩ : Node) ∈
      GetDescendants (runAdds (⟨exDb6.nodes, [], []⟩ : DB) [(0, 1), (1, 2), (2, 3)]) 0 ∧
    (⟨2, "B", "Task", "", 0, none, none⟩ : Node) ∈
      GetDescendants (runAdds (⟨exDb6.nodes, [], []⟩ : DB) [(0, 1), (1, 2), (2, 3)]) 0 ∧
    (⟨3, "C", "Task", "", 0, none, none⟩ : Node) ∈
      GetDescendants (runAdds (⟨exDb6.nodes, [], []⟩ : DB) [(0, 1), (1, 2), (2, 3)]) 0 := by
  have hd : List.Pairwise (fun x y => x ≠ y) [0, 1, 2, 3] := by
    refine List.Pairwise.cons ?_ (List.Pairwise.cons ?_
      (List.Pairwise.cons ?_ (List.Pairwise.cons ?_ List.Pairwise.nil))) <;>
      intro q hq <;> fin_cases hq <;> decide
  exact ⟨hd, C5_chain_descendants 0 1 2 3 hd exDb6.nodes []
    ⟨1, "A", "Task", "", 0, none, none⟩ ⟨2, "B", "Task", "", 0, none, none⟩
    ⟨3, "C", "Task", "", 0, none, none⟩ (by decide) (by decide) (by decide) rfl rfl rfl⟩

/-- C6 (counterexample): with the good, cycle-free calls (1,2) then
(2,3) over the nodes of `exDb6`, node 2 holds the direct edge to node
3 — its closure row is (2,3,0) — yet `GetImmediateAncestors 3` returns
`[node 1]`: the depth-1 row records the length-2 path 1→2→3, not the
direct parent. -/
theorem C6_counterexample :
    NodeClosure.mk 2 3 0 ∈ (runAdds exDb6 [(1, 2), (2, 3)]).node_closure ∧
    GetImmediateAncestors (runAdds exDb6 [(1, 2), (2, 3)]) 3
      = [⟨1, "A", "Task", "", 0, none, none⟩] :=
  ⟨by decide, by decide⟩

/-- C6 (amended): for a good call sequence over an initially empty
closure table, `GetImmediateAncestors n` returns exactly the stored
nodes whose id reaches `n` by a path of length 2 — the depth-1 rows —
rather than the direct-edge parents (whose rows sit at depth 0). -/
theorem C6_amended_thm (cs : List (Nat × Nat)) (hg : GoodSeq cs)
    (ns : List Node) (ls : List WorkflowLog) (n : Nat) (nd : Node) :
    nd ∈ GetImmediateAncestors (runAdds (⟨ns, [], ls⟩ : DB) cs) n ↔
      nd ∈ ns ∧ Path cs nd.id n 2 := by
  constructor
  · intro h
    simp only [GetImmediateAncestors] at h
    obtain ⟨e, hef, hnf⟩ := List.mem_flatMap.mp h
    obtain ⟨he, hcond⟩ := List.mem_filter.mp hef
    obtain ⟨hnd, hid⟩ := List.mem_filter.mp hnf
    simp only [Bool.and_eq_true, beq_iff_eq] at hcond hid
    have hp := closure_sound rfl he
    rw [runAdds_nodes] at hnd
    refine ⟨hnd, ?_⟩
    rw [hid]
    rw [hcond.1, hcond.2] at hp
    exact hp
  · rintro ⟨hnd, hp⟩
    have hm := closure_complete cs hg (⟨ns, [], ls⟩ : DB) rfl nd.id n 1 hp
    simp only [GetImmediateAncestors]
    refine List.mem_flatMap.mpr ⟨⟨nd.id, n, 1⟩, List.mem_filter.mpr ⟨hm, by simp⟩,
      List.mem_filter.mpr ⟨?_, by simp⟩⟩
    rw [runAdds_nodes]
    exact hnd

/-- C6 (witness): over the good sequence (5,6),(6,7), the stored node
with id 5 is returned by `GetImmediateAncestors 7` — it reaches 7 by
the length-2 path 5→6→7. -/
theorem C6_witness :
    GoodSeq [(5, 6), (6, 7)] ∧
    (⟨5, "E", "Task", "", 0, none, none⟩ : Node) ∈
      GetImmediateAncestors
        (runAdds (⟨[⟨5, "E", "Task", "", 0, none, none⟩], [], []⟩ : DB) [(5, 6), (6, 7)]) 7 := by
  have hg : GoodSeq [(5, 6), (6, 7)] := goodSeq_pair (by decide) (by decide) (by decide)
  have q1 : Path [(5, 6), (6, 7)] 5 6 1 := Path.single (by decide)
  have q2 : Path [(5, 6), (6, 7)] 5 7 2 := Path.snoc q1 (by decide)
  exact ⟨hg, (C6_amended_thm [(5, 6), (6, 7)] hg [⟨5, "E", "Task", "", 0, none, none⟩] [] 7
    ⟨5, "E", "Task", "", 0, none, none⟩).mpr ⟨by decide, q2⟩⟩

end Frosty
